import Mathlib

/-!
Verification of the requirements-table extractor in
src/backend/pdf_extractor.py (function extract_active_requirements_table).

The Python function is embedded shallowly:
* a page is an `Option (List Char)` (`None` from the text-extraction library
  or the empty string are the falsy values skipped on line 34);
* the whole file is an `Option (List (Option (List Char)))`, where `none`
  models a file that cannot be opened or read (FileNotFoundError / IO error);
* Python strings are `List Char` (ASCII model of the `str` type: the regex
  classes \w and \s and `str.strip` are read over ASCII);
* each concrete regular expression of the source is compiled by hand into a
  deterministic function; the patterns involved have disjoint character
  classes at every choice point, so greedy/lazy backtracking semantics reduce
  to the maximal-munch scans written below.  The strict row pattern is
  embedded under the invariant (established on line 40 of the source,
  `line = line.strip()`) that its argument is a stripped line;
* the `IndexError` raised by line 76 (`current_row[1] = ...` on a
  one-element list) and caught by the blanket handler on line 98 is modelled
  with `Except`.
-/

namespace PdfExtractor

/-- Python whitespace (ASCII): the characters stripped by `str.strip` and
matched by the regex class `\s`. -/
def isSpace (c : Char) : Bool :=
  c = ' ' || c = '\t' || c = '\n' || c = '\r' || c = '\x0b' || c = '\x0c'

/-- Regex class `\w` (ASCII model): letters, digits, underscore. -/
def isWordChar (c : Char) : Bool := c.isAlpha || c.isDigit || c = '_'

/-- Regex class `[\w-]` used in the row patterns. -/
def isWordHyphen (c : Char) : Bool := isWordChar c || c = '-'

/-- Left part of `str.strip`. -/
def lstrip (s : List Char) : List Char := s.dropWhile isSpace

/-- Right part of `str.strip`. -/
def rstrip (s : List Char) : List Char := (s.reverse.dropWhile isSpace).reverse

/-- Python `str.strip()`. -/
def strip (s : List Char) : List Char := rstrip (lstrip s)

/-- The first character, if any, is not whitespace. -/
def headNotSpace : List Char → Bool
  | [] => true
  | c :: _ => !isSpace c

/-- The last character, if any, is not whitespace. -/
def lastNotSpace (s : List Char) : Bool := headNotSpace s.reverse

/-- Python `text.split('\n')` (line 38). -/
def splitLines (s : List Char) : List (List Char) := s.splitOn '\n'

/-- Match a literal pattern (case-sensitively) as a prefix, returning the rest. -/
def dropLit : List Char → List Char → Option (List Char)
  | [], s => some s
  | _ :: _, [] => none
  | p :: ps, c :: cs => if c = p then dropLit ps cs else none

/-- Match a lowercase literal pattern case-insensitively as a prefix. -/
def dropLitCI : List Char → List Char → Option (List Char)
  | [], s => some s
  | _ :: _, [] => none
  | p :: ps, c :: cs => if c.toLower = p then dropLitCI ps cs else none

/-- The literal `REQ-` opening both row patterns. -/
def reqTag : List Char := ['R', 'E', 'Q', '-']

/-- `\s+`: at least one whitespace character, then the rest.  The classes on
either side of every `\s+` in the source patterns are disjoint from `\s`,
so the maximal munch is the regex behaviour. -/
def dropSpaces1 : List Char → Option (List Char)
  | c :: cs => if isSpace c then some (cs.dropWhile isSpace) else none
  | [] => none

/-- Body of the marker pattern `Active\s+Requirements` (case-insensitive),
anchored at the current position. -/
def markerAt (s : List Char) : Option (List Char) :=
  match dropLitCI ['a','c','t','i','v','e'] s with
  | none => none
  | some r1 =>
    match dropSpaces1 r1 with
    | none => none
    | some r2 => dropLitCI ['r','e','q','u','i','r','e','m','e','n','t','s'] r2

/-- The closing word boundary `\b`: end of string or a non-word character. -/
def notWordStart : List Char → Bool
  | [] => true
  | c :: _ => !isWordChar c

/-- The full marker pattern matches at the current position. -/
def markerHere (s : List Char) : Bool :=
  match markerAt s with
  | some r => notWordStart r
  | none => false

/-- `re.search(r"\bActive\s+Requirements\b", line, re.IGNORECASE)` (line 44):
the boolean argument records whether the scan position is at a left word
boundary. -/
def searchMarkerAux : Bool → List Char → Bool
  | atB, [] => atB && markerHere []
  | atB, c :: cs => (atB && markerHere (c :: cs)) || searchMarkerAux (!isWordChar c) cs

/-- The line contains the Active Requirements marker. -/
def hasMarker (line : List Char) : Bool := searchMarkerAux true line

/-- The head exists and satisfies `p`. -/
def headSat (p : Char → Bool) : List Char → Bool
  | c :: _ => p c
  | [] => false

/-- `\.\d+\s+`, the tail of the first boundary alternative. -/
def dotDigitsSpace : List Char → Bool
  | c :: rest =>
    c = '.' && !(rest.takeWhile Char.isDigit).isEmpty &&
      headSat isSpace (rest.dropWhile Char.isDigit)
  | [] => false

/-- First boundary alternative `^\d{1,2}\.\d+\s+`. -/
def boundaryAlt1 : List Char → Bool
  | a :: b :: rest =>
    a.isDigit && ((b.isDigit && dotDigitsSpace rest) || dotDigitsSpace (b :: rest))
  | _ => false

/-- Second boundary alternative `^[A-Z][a-zA-Z\s]+:`. -/
def boundaryAlt2 : List Char → Bool
  | c :: rest =>
    c.isUpper && !(rest.takeWhile (fun d => d.isAlpha || isSpace d)).isEmpty &&
      headSat (fun d => d = ':') (rest.dropWhile (fun d => d.isAlpha || isSpace d))
  | [] => false

/-- `re.match(r"^\d{1,2}\.\d+\s+|^[A-Z][a-zA-Z\s]+:", line)` (line 51). -/
def isBoundaryLine (line : List Char) : Bool := boundaryAlt1 line || boundaryAlt2 line

/-- `v\d+`: the literal `v` followed by at least one digit. -/
def vDigits : List Char → Bool
  | c :: r4 => c = 'v' && headSat Char.isDigit r4
  | [] => false

/-- `re.match(r"REQ-[\w-]+\s+v\d+", line)` (line 58). -/
def isRowStart (line : List Char) : Bool :=
  match dropLit reqTag line with
  | none => false
  | some r =>
    !(r.takeWhile isWordHyphen).isEmpty &&
      (match dropSpaces1 (r.dropWhile isWordHyphen) with
       | some r3 => vDigits r3
       | none => false)

/-- `\s*\d+` at end of line, the tail of the annotation group after `)`. -/
def annDigitsTail (r4 : List Char) : Bool :=
  !((r4.dropWhile isSpace).takeWhile Char.isDigit).isEmpty &&
    ((r4.dropWhile isSpace).dropWhile Char.isDigit).isEmpty

/-- `\w+\)\s*\d+` at end of line, the annotation group after `(`. -/
def annAfterParen (r2 : List Char) : Bool :=
  !(r2.takeWhile isWordChar).isEmpty &&
    (match r2.dropWhile isWordChar with
     | e :: r4 => e = ')' && annDigitsTail r4
     | [] => false)

/-- `\(\w+\)\s*\d+` at end of line. -/
def annOpen : List Char → Bool
  | o :: r2 => o = '(' && annAfterParen r2
  | [] => false

/-- The optional trailing annotation group `(?:\s+\(\w+\)\s*\d+)` of the
strict row pattern, matched against all of `s` (it is `$`-anchored). -/
def annMatch : List Char → Bool
  | c :: cs => isSpace c && annOpen (cs.dropWhile isSpace)
  | [] => false

/-- The lazy title group `(.+?)` followed by the optional annotation: keep
characters until the first position (at least one character in) from which
the remainder of the line is exactly a trailing annotation. -/
def titleSplitAux : List Char → List Char
  | [] => []
  | c :: cs => if annMatch (c :: cs) then [] else c :: titleSplitAux cs

/-- The title group of the strict pattern over the text after `v<digits>\s+`. -/
def titleSplit : List Char → List Char
  | [] => []
  | c :: cs => c :: titleSplitAux cs

/-- The part of the strict row pattern after `(REQ-[\w-]+)\s+`: the version
group, the separating `\s+`, the lazy title group and the optional trailing
annotation, with the construction of `unique_id` and `name` (lines 68-69). -/
def strictTail (idr r3 : List Char) : Option (List Char × List Char) :=
  match r3 with
  | [] => none
  | c :: r4 =>
    if c = 'v' then
      if (r4.takeWhile Char.isDigit).isEmpty then none else
      match dropSpaces1 (r4.dropWhile Char.isDigit) with
      | none => none
      | some r6 =>
        if r6 = [] then none else
        some (strip (reqTag ++ idr ++ ' ' :: 'v' :: r4.takeWhile Char.isDigit),
              strip (titleSplit r6))
    else none

/-- The strict row pattern after its literal `REQ-`: the id group `[\w-]+`,
the separating `\s+`, then `strictTail`. -/
def strictAfterTag (r : List Char) : Option (List Char × List Char) :=
  if (r.takeWhile isWordHyphen).isEmpty then none else
  match dropSpaces1 (r.dropWhile isWordHyphen) with
  | none => none
  | some r3 => strictTail (r.takeWhile isWordHyphen) r3

/-- `re.match(r"^(REQ-[\w-]+)\s+v(\d+)\s+(.+?)(?:\s+\(\w+\)\s*\d+)?$", line)`
(line 66) together with the construction of `unique_id` and `name` on lines
68-69, returning `(unique_id, name)`. -/
def strictParse (line : List Char) : Option (List Char × List Char) :=
  match dropLit reqTag line with
  | none => none
  | some r => strictAfterTag r

/-- The scan state of lines 24-27: the `capturing` flag, the committed rows
`data`, and the mutable `current_row` list. -/
structure ScanState where
  capturing : Bool
  data : List (List (List Char))
  current_row : List (List Char)
deriving DecidableEq

/-- The state created on lines 24-27. -/
def initialState : ScanState := { capturing := false, data := [], current_row := [] }

/-- The commit of a partial row before a new row starts (lines 60-63):
`if current_row: if len(current_row) >= 2: data.append(current_row[:2]);
current_row = []`. -/
def flushRow (st : ScanState) : ScanState :=
  if st.current_row = [] then st
  else { st with
         data := if 2 ≤ st.current_row.length then st.data ++ [st.current_row.take 2]
                 else st.data,
         current_row := [] }

/-- One iteration of the inner line loop (lines 39-76).  The boolean of the
result records whether the loop was left with `break`; the `IndexError`
raised by the index-1 assignment on line 76 when `current_row` has a single
element is `Except.error`. -/
def processLine (st : ScanState) (rawLine : List Char) : Except Unit (ScanState × Bool) :=
  if strip rawLine = [] then .ok (st, false)
  else if st.capturing = false ∧ hasMarker (strip rawLine) = true then
    .ok ({ st with capturing := true }, false)
  else if st.capturing = true then
    if isBoundaryLine (strip rawLine) = true then .ok ({ st with capturing := false }, true)
    else if isRowStart (strip rawLine) = true then
      match strictParse (strip rawLine) with
      | some (uid, nm) => .ok ({ flushRow st with current_row := [uid, nm] }, false)
      | none => .ok ({ flushRow st with
                       current_row := (flushRow st).current_row ++ [strip rawLine] }, false)
    else if st.current_row = [] then .ok (st, false)
    else if 1 < st.current_row.length then
      .ok ({ st with
             current_row := st.current_row.set 1
               (strip (st.current_row.getD 1 [] ++ ' ' :: strip rawLine)) },
           false)
    else .error ()
  else .ok (st, false)

/-- The inner `for line in lines` loop, stopping early on `break`. -/
def processLines (st : ScanState) : List (List Char) → Except Unit ScanState
  | [] => .ok st
  | l :: ls =>
    match processLine st l with
    | .error e => .error e
    | .ok (st1, true) => .ok st1
    | .ok (st1, false) => processLines st1 ls

/-- The end-of-page flush of lines 78-81. -/
def pageFlush (st : ScanState) : ScanState :=
  if st.capturing = true ∧ st.current_row ≠ [] ∧ 2 ≤ st.current_row.length then
    { st with data := st.data ++ [st.current_row.take 2], current_row := [] }
  else st

/-- One iteration of the page loop (lines 32-81): a page with no text
(`None` or empty) is skipped on lines 33-36, otherwise its lines are
scanned and the page-break flush is applied. -/
def processPage (st : ScanState) (page : Option (List Char)) : Except Unit ScanState :=
  match page with
  | none => .ok st
  | some t =>
    if t = [] then .ok st
    else
      match processLines st (splitLines t) with
      | .error e => .error e
      | .ok st1 => .ok (pageFlush st1)

/-- The page loop over the whole document. -/
def scanPages (st : ScanState) : List (Option (List Char)) → Except Unit ScanState
  | [] => .ok st
  | p :: ps =>
    match processPage st p with
    | .error e => .error e
    | .ok st1 => scanPages st1 ps

/-- The scan of all pages followed by the final flush of lines 83-85. -/
def scanDocument (pages : List (Option (List Char))) : Except Unit (List (List (List Char))) :=
  match scanPages initialState pages with
  | .error e => .error e
  | .ok st =>
    .ok (if st.current_row ≠ [] ∧ 2 ≤ st.current_row.length
         then st.data ++ [st.current_row.take 2] else st.data)

/-- The whole of extract_active_requirements_table (lines 21-100).  The
argument is `none` when the file cannot be opened or read (lines 95-97); any
exception escaping the scan is caught by the blanket handler of lines 98-100
and, like the empty-data case of lines 93-94, turned into `None`. -/
def extract_active_requirements_table
    (file : Option (List (Option (List Char)))) : Option (List (List (List Char))) :=
  match file with
  | none => none
  | some pages =>
    match scanDocument pages with
    | .error _ => none
    | .ok data => if data = [] then none else some data

/-- Decidable form of "no suffix of t matches the trailing annotation group":
positions beyond the length give the empty list, on which `annMatch` is false. -/
def noAnnSuffix (t : List Char) : Bool :=
  (List.range (t.length + 1)).all fun q => !annMatch (t.drop q)

/-- The region marker line used by the concrete examples. -/
def markerLine : List Char := "Active Requirements".toList

/-- Page text with a well-formed row followed by a line that matches the
row-start pattern but not the strict pattern, then a further line. -/
def c1Input : List Char :=
  "Active Requirements\nREQ-200 v1 Good row\nREQ-1 v2\nmore words here".toList

/-- Page text whose third line drives the scan into the index-1 assignment
on a one-element current_row. -/
def c3Input : List Char :=
  "Active Requirements\nREQ-7 v1\nsome more text".toList

/-- The input lines of the end-to-end example of the spec, joined as one page. -/
def c6Input : List Char :=
  ("Active Requirements\nREQ-100 v1 Engine shall report speed\n" ++
   "to the dashboard module (v2) 14\nREQ-101 v1 Brake system shall fail safe").toList

/-- Page on which a boundary line ends capturing while a record is pending. -/
def c10page1 : List Char := "Active Requirements\nREQ-1 v1 Title\nSummary:".toList

/-- Page that re-triggers capturing and appends a continuation line. -/
def c10page2 : List Char := "Active Requirements\nmore words".toList

/-- A final page, showing the document continues past the commit. -/
def c10page3 : List Char := "Other:\nstuff".toList

end PdfExtractor

namespace PdfExtractor

/-! ### Character-class and strip lemmas -/

theorem isSpace_cases {c : Char} (h : isSpace c = true) :
    c = ' ' ∨ c = '\t' ∨ c = '\n' ∨ c = '\r' ∨ c = '\x0b' ∨ c = '\x0c' := by
  unfold isSpace at h
  simp only [Bool.or_eq_true, decide_eq_true_eq] at h
  tauto

theorem isSpace_false_of_isDigit {c : Char} (h : c.isDigit = true) : isSpace c = false := by
  rcases Bool.eq_false_or_eq_true (isSpace c) with ht | hf
  · rcases isSpace_cases ht with h1 | h1 | h1 | h1 | h1 | h1 <;>
      (subst h1; exact absurd h (by decide))
  · exact hf

theorem isSpace_false_of_isWordHyphen {c : Char} (h : isWordHyphen c = true) :
    isSpace c = false := by
  rcases Bool.eq_false_or_eq_true (isSpace c) with ht | hf
  · rcases isSpace_cases ht with h1 | h1 | h1 | h1 | h1 | h1 <;>
      (subst h1; exact absurd h (by decide))
  · exact hf

theorem lstrip_of_headNotSpace {l : List Char} (h : headNotSpace l = true) : lstrip l = l := by
  cases l with
  | nil => rfl
  | cons c t =>
    unfold headNotSpace at h
    rw [Bool.not_eq_true'] at h
    exact List.dropWhile_cons_of_neg (by simp [h])

theorem rstrip_of_lastNotSpace {l : List Char} (h : lastNotSpace l = true) : rstrip l = l := by
  unfold lastNotSpace at h
  unfold rstrip
  rw [show l.reverse.dropWhile isSpace = l.reverse from lstrip_of_headNotSpace h]
  exact List.reverse_reverse l

theorem strip_of_stripped {l : List Char} (h1 : headNotSpace l = true)
    (h2 : lastNotSpace l = true) : strip l = l := by
  unfold strip
  rw [show lstrip l = l from lstrip_of_headNotSpace h1]
  exact rstrip_of_lastNotSpace h2

theorem headNotSpace_dropWhile (l : List Char) :
    headNotSpace (l.dropWhile isSpace) = true := by
  induction l with
  | nil => rfl
  | cons c t ih =>
    by_cases h : isSpace c = true
    · rw [List.dropWhile_cons_of_pos h]; exact ih
    · rw [List.dropWhile_cons_of_neg (by simp [h])]
      unfold headNotSpace
      simp [h]

theorem headNotSpace_lstrip (l : List Char) : headNotSpace (lstrip l) = true :=
  headNotSpace_dropWhile l

theorem exists_rstrip_suffix (l : List Char) : ∃ t, l = rstrip l ++ t := by
  refine ⟨(l.reverse.takeWhile isSpace).reverse, ?_⟩
  unfold rstrip
  rw [← List.reverse_append, List.takeWhile_append_dropWhile, List.reverse_reverse]

theorem headNotSpace_append {l r : List Char} (h : l ≠ []) :
    headNotSpace (l ++ r) = headNotSpace l := by
  cases l with
  | nil => exact absurd rfl h
  | cons c t => rfl

theorem headNotSpace_rstrip {l : List Char} (h : headNotSpace l = true) :
    headNotSpace (rstrip l) = true := by
  obtain ⟨t, ht⟩ := exists_rstrip_suffix l
  cases hr : rstrip l with
  | nil => rfl
  | cons c x =>
    rw [hr] at ht
    rw [ht] at h
    exact h

theorem headNotSpace_strip (l : List Char) : headNotSpace (strip l) = true :=
  headNotSpace_rstrip (headNotSpace_lstrip l)

theorem lastNotSpace_rstrip (l : List Char) : lastNotSpace (rstrip l) = true := by
  unfold lastNotSpace rstrip
  rw [List.reverse_reverse]
  exact headNotSpace_dropWhile _

theorem lastNotSpace_strip (l : List Char) : lastNotSpace (strip l) = true :=
  lastNotSpace_rstrip _

theorem strip_idem (l : List Char) : strip (strip l) = strip l :=
  strip_of_stripped (headNotSpace_strip l) (lastNotSpace_strip l)

theorem dropWhile_append_singleton_ne_nil {p : Char → Bool} {c : Char}
    (h : p c = false) (xs : List Char) : (xs ++ [c]).dropWhile p ≠ [] := by
  induction xs with
  | nil => simp [List.dropWhile, h]
  | cons x t ih =>
    by_cases hx : p x = true
    · rw [List.cons_append, List.dropWhile_cons_of_pos hx]; exact ih
    · rw [List.cons_append, List.dropWhile_cons_of_neg (by simp [hx])]; simp

theorem strip_cons_ne_nil {c : Char} {t : List Char} (h : isSpace c = false) :
    strip (c :: t) ≠ [] := by
  unfold strip
  rw [show lstrip (c :: t) = c :: t from
        lstrip_of_headNotSpace (by unfold headNotSpace; simp [h])]
  unfold rstrip
  intro hc
  rw [List.reverse_eq_nil_iff] at hc
  have hne := dropWhile_append_singleton_ne_nil h t.reverse
  rw [show (c :: t).reverse = t.reverse ++ [c] from by simp] at hc
  exact hne hc

theorem lastNotSpace_append {a b : List Char} (h : b ≠ []) :
    lastNotSpace (a ++ b) = lastNotSpace b := by
  unfold lastNotSpace
  rw [List.reverse_append]
  exact headNotSpace_append (by simp [h])

theorem strip_append_sep {a b : List Char} (ha1 : a ≠ []) (ha2 : headNotSpace a = true)
    (hb1 : b ≠ []) (hb2 : lastNotSpace b = true) :
    strip (a ++ ' ' :: b) = a ++ ' ' :: b := by
  apply strip_of_stripped
  · rw [headNotSpace_append ha1]; exact ha2
  · rw [show a ++ ' ' :: b = (a ++ [' ']) ++ b from by simp, lastNotSpace_append hb1]
    exact hb2

/-! ### Pattern-matching lemmas -/

theorem dropLit_append (pat s : List Char) : dropLit pat (pat ++ s) = some s := by
  induction pat with
  | nil => rfl
  | cons p ps ih => simp [dropLit, ih]

theorem dropLit_some {pat s r : List Char} (h : dropLit pat s = some r) : s = pat ++ r := by
  induction pat generalizing s with
  | nil =>
    injection h with h
  | cons p ps ih =>
    cases s with
    | nil => exact absurd h (by simp [dropLit])
    | cons c cs =>
      unfold dropLit at h
      by_cases hc : c = p
      · rw [if_pos hc] at h
        rw [List.cons_append, ← ih h, hc]
      · rw [if_neg hc] at h
        exact absurd h (by simp)

theorem dropSpaces1_some {s r : List Char} (h : dropSpaces1 s = some r) :
    ∃ c cs, s = c :: cs ∧ isSpace c = true ∧ r = cs.dropWhile isSpace := by
  cases s with
  | nil => exact absurd h (by simp [dropSpaces1])
  | cons c cs =>
    rw [show dropSpaces1 (c :: cs) =
          if isSpace c = true then some (cs.dropWhile isSpace) else none from rfl] at h
    by_cases hc : isSpace c = true
    · rw [if_pos hc] at h
      injection h with h
      exact ⟨c, cs, rfl, hc, h.symm⟩
    · rw [if_neg hc] at h
      exact absurd h (by simp)

theorem head_sat_of_takeWhile_ne_nil {p : Char → Bool} {l : List Char}
    (h : ¬ (l.takeWhile p).isEmpty = true) : ∃ d t, l = d :: t ∧ p d = true := by
  cases l with
  | nil => simp [List.takeWhile] at h
  | cons d t =>
    by_cases hd : p d = true
    · exact ⟨d, t, rfl, hd⟩
    · rw [List.takeWhile_cons_of_neg (by simp [hd])] at h
      simp at h

theorem all_takeWhile (p : Char → Bool) (l : List Char) :
    (l.takeWhile p).all p = true := by
  induction l with
  | nil => rfl
  | cons c t ih =>
    by_cases h : p c = true
    · rw [List.takeWhile_cons_of_pos h]
      simp [h, ih]
    · rw [List.takeWhile_cons_of_neg (by simp [h])]
      rfl

theorem not_mem_of_all_class {l : List Char} {p : Char → Bool} {a : Char}
    (h : l.all p = true) (ha : p a = false) : a ∉ l := by
  intro hm
  have := List.all_eq_true.mp h a hm
  rw [ha] at this
  exact absurd this (by simp)

theorem ne_nil_of_not_isEmpty {l : List Char} (h : (!l.isEmpty) = true) : l ≠ [] := by
  intro he
  subst he
  simp at h

theorem not_isEmpty_of_ne_nil {l : List Char} (h : l ≠ []) : (!l.isEmpty) = true := by
  cases l with
  | nil => exact absurd rfl h
  | cons c t => rfl

theorem eq_nil_of_isEmpty {l : List Char} (h : l.isEmpty = true) : l = [] := by
  cases l with
  | nil => rfl
  | cons c t => simp at h

theorem takeWhile_eq_self_of_all {p : Char → Bool} {l : List Char} (h : l.all p = true) :
    l.takeWhile p = l := by
  induction l with
  | nil => rfl
  | cons c t ih =>
    simp only [List.all_cons, Bool.and_eq_true] at h
    rw [List.takeWhile_cons_of_pos h.1, ih h.2]

theorem dropWhile_eq_nil_of_all {p : Char → Bool} {l : List Char} (h : l.all p = true) :
    l.dropWhile p = [] := by
  induction l with
  | nil => rfl
  | cons c t ih =>
    simp only [List.all_cons, Bool.and_eq_true] at h
    rw [List.dropWhile_cons_of_pos h.1]
    exact ih h.2

/-! ### Structure of the trailing-annotation pattern -/

theorem annMatch_decomp {s : List Char} (h : annMatch s = true) :
    ∃ sp w sp2 d, s = sp ++ '(' :: (w ++ ')' :: (sp2 ++ d)) ∧
      sp ≠ [] ∧ sp.all isSpace = true ∧ w ≠ [] ∧ w.all isWordChar = true ∧
      sp2.all isSpace = true ∧ d ≠ [] ∧ d.all Char.isDigit = true := by
  cases s with
  | nil => exact absurd h (by decide)
  | cons c cs =>
    rw [show annMatch (c :: cs) = (isSpace c && annOpen (cs.dropWhile isSpace)) from rfl,
        Bool.and_eq_true] at h
    obtain ⟨hc, h2⟩ := h
    cases hdw : cs.dropWhile isSpace with
    | nil => rw [hdw] at h2; exact absurd h2 (by decide)
    | cons o r2 =>
      rw [hdw] at h2
      simp only [annOpen, Bool.and_eq_true, decide_eq_true_eq] at h2
      obtain ⟨ho, h3⟩ := h2
      subst ho
      unfold annAfterParen at h3
      rw [Bool.and_eq_true] at h3
      obtain ⟨hw, h4⟩ := h3
      cases hdw2 : r2.dropWhile isWordChar with
      | nil => rw [hdw2] at h4; exact absurd h4 (by decide)
      | cons e r4 =>
        rw [hdw2] at h4
        simp only [Bool.and_eq_true, decide_eq_true_eq] at h4
        obtain ⟨he, hdt⟩ := h4
        subst he
        unfold annDigitsTail at hdt
        rw [Bool.and_eq_true] at hdt
        obtain ⟨hd, hr6⟩ := hdt
        refine ⟨c :: cs.takeWhile isSpace, r2.takeWhile isWordChar, r4.takeWhile isSpace,
                (r4.dropWhile isSpace).takeWhile Char.isDigit, ?_, by simp, ?_,
                ne_nil_of_not_isEmpty hw, all_takeWhile _ _,
                all_takeWhile _ _, ne_nil_of_not_isEmpty hd, all_takeWhile _ _⟩
        · have e1 : cs = cs.takeWhile isSpace ++ ('(' :: r2) := by
            conv_lhs => rw [← List.takeWhile_append_dropWhile isSpace cs]
            rw [hdw]
          have e2 : r2 = r2.takeWhile isWordChar ++ (')' :: r4) := by
            conv_lhs => rw [← List.takeWhile_append_dropWhile isWordChar r2]
            rw [hdw2]
          have e4 : r4 = r4.takeWhile isSpace ++ r4.dropWhile isSpace :=
            (List.takeWhile_append_dropWhile _ _).symm
          have e5 : r4.dropWhile isSpace = (r4.dropWhile isSpace).takeWhile Char.isDigit := by
            conv_lhs => rw [← List.takeWhile_append_dropWhile Char.isDigit (r4.dropWhile isSpace)]
            rw [eq_nil_of_isEmpty hr6, List.append_nil]
          rw [List.cons_append]
          congr 1
          rw [e1]
          congr 2
          rw [e2]
          congr 2
          conv_lhs => rw [e4]
          rw [← e5]
        · simp only [List.all_cons, Bool.and_eq_true]
          exact ⟨hc, all_takeWhile _ _⟩

theorem annMatch_build {sp w sp2 d : List Char}
    (hsp : sp ≠ []) (hspA : sp.all isSpace = true) (hw : w ≠ []) (hwA : w.all isWordChar = true)
    (hs2A : sp2.all isSpace = true) (hd : d ≠ []) (hdA : d.all Char.isDigit = true) :
    annMatch (sp ++ '(' :: (w ++ ')' :: (sp2 ++ d))) = true := by
  cases sp with
  | nil => exact absurd rfl hsp
  | cons c sp1 =>
    simp only [List.all_cons, Bool.and_eq_true] at hspA
    obtain ⟨hc, hsp1⟩ := hspA
    rw [List.cons_append]
    show (isSpace c && annOpen ((sp1 ++ '(' :: (w ++ ')' :: (sp2 ++ d))).dropWhile isSpace)) = true
    rw [List.dropWhile_append_of_pos (by intro a ha; exact List.all_eq_true.mp hsp1 a ha),
        List.dropWhile_cons_of_neg (by decide)]
    simp only [annOpen, Bool.and_eq_true, decide_eq_true_eq]
    refine ⟨hc, by trivial, ?_⟩
    unfold annAfterParen
    rw [List.takeWhile_append_of_pos (by intro a ha; exact List.all_eq_true.mp hwA a ha),
        List.takeWhile_cons_of_neg (by decide), List.append_nil,
        List.dropWhile_append_of_pos (by intro a ha; exact List.all_eq_true.mp hwA a ha),
        List.dropWhile_cons_of_neg (by decide)]
    simp only [Bool.and_eq_true, decide_eq_true_eq]
    refine ⟨not_isEmpty_of_ne_nil hw, by trivial, ?_⟩
    unfold annDigitsTail
    have hdrop : (sp2 ++ d).dropWhile isSpace = d := by
      rw [List.dropWhile_append_of_pos (by intro a ha; exact List.all_eq_true.mp hs2A a ha)]
      cases d with
      | nil => exact absurd rfl hd
      | cons d0 d1 =>
        apply List.dropWhile_cons_of_neg
        simp only [List.all_cons, Bool.and_eq_true] at hdA
        simp [isSpace_false_of_isDigit hdA.1]
    rw [hdrop, takeWhile_eq_self_of_all hdA, dropWhile_eq_nil_of_all hdA]
    simp [not_isEmpty_of_ne_nil hd]

theorem paren_split_unique {a u b v : List Char}
    (h : a ++ '(' :: u = b ++ '(' :: v) (hb : '(' ∉ b) (hv : '(' ∉ v) :
    a = b ∧ u = v := by
  induction b generalizing a with
  | nil =>
    cases a with
    | nil =>
      rw [List.nil_append, List.nil_append] at h
      injection h with _ h2
      exact ⟨rfl, h2⟩
    | cons c a1 =>
      rw [List.nil_append, List.cons_append] at h
      injection h with h1 h2
      subst h1
      exfalso
      apply hv
      rw [← h2]
      exact List.mem_append_right _ (List.mem_cons_self _ _)
  | cons c b1 ih =>
    cases a with
    | nil =>
      rw [List.nil_append, List.cons_append] at h
      injection h with h1 _
      exfalso
      apply hb
      rw [h1]
      exact List.mem_cons_self _ _
    | cons x a1 =>
      rw [List.cons_append, List.cons_append] at h
      injection h with h1 h2
      subst h1
      have hb1 : '(' ∉ b1 := fun hm => hb (List.mem_cons_of_mem _ hm)
      obtain ⟨he, hu⟩ := ih h2 hb1
      exact ⟨by rw [he], hu⟩

theorem all_space_of_annMatch_append {x ann : List Char}
    (hx : annMatch (x ++ ann) = true) (hann : annMatch ann = true) :
    x.all isSpace = true := by
  obtain ⟨sp2, w2, s22, d2, hs, _, hsp2, _, hw2, hs22, _, hd2⟩ := annMatch_decomp hx
  obtain ⟨sp1, w1, s21, d1, hae, _, hsp1, _, _, _, _, _⟩ := annMatch_decomp hann
  have h1 : (x ++ sp1) ++ '(' :: (w1 ++ ')' :: (s21 ++ d1)) =
      sp2 ++ '(' :: (w2 ++ ')' :: (s22 ++ d2)) := by
    rw [List.append_assoc, ← hae, hs]
  have hbpf : '(' ∉ sp2 := not_mem_of_all_class hsp2 (by decide)
  have hvpf : '(' ∉ (w2 ++ ')' :: (s22 ++ d2)) := by
    intro hm
    rcases List.mem_append.mp hm with hm | hm
    · exact not_mem_of_all_class hw2 (by decide) hm
    · rcases List.mem_cons.mp hm with he | hm
      · exact absurd he (by decide)
      · rcases List.mem_append.mp hm with hm | hm
        · exact not_mem_of_all_class hs22 (by decide) hm
        · exact not_mem_of_all_class hd2 (by decide) hm
  obtain ⟨heq, _⟩ := paren_split_unique h1 hbpf hvpf
  have hall : (x ++ sp1).all isSpace = true := by rw [heq]; exact hsp2
  rw [List.all_append, Bool.and_eq_true] at hall
  exact hall.1

/-! ### The lazy title group -/

theorem titleSplitAux_of_annMatch {s : List Char} (h : annMatch s = true) :
    titleSplitAux s = [] := by
  cases s with
  | nil => rfl
  | cons c cs =>
    unfold titleSplitAux
    rw [if_pos h]

theorem all_space_lastNotSpace_contra {xs : List Char} (h1 : xs ≠ [])
    (h2 : lastNotSpace xs = true) (h3 : xs.all isSpace = true) : False := by
  cases hr : xs.reverse with
  | nil => exact h1 (by simpa using congrArg List.reverse hr)
  | cons y ys =>
    have hy : y ∈ xs := by
      have hm : y ∈ xs.reverse := by rw [hr]; exact List.mem_cons_self _ _
      simpa using hm
    have hsp : isSpace y = true := List.all_eq_true.mp h3 y hy
    unfold lastNotSpace at h2
    rw [hr] at h2
    unfold headNotSpace at h2
    simp [hsp] at h2

theorem lastNotSpace_cons_cons {x y : Char} {ys : List Char} :
    lastNotSpace (x :: y :: ys) = lastNotSpace (y :: ys) := by
  unfold lastNotSpace
  rw [show (x :: y :: ys).reverse = (y :: ys).reverse ++ [x] from by simp]
  exact headNotSpace_append (by simp)

theorem titleSplitAux_core_append {ann : List Char} (hann : annMatch ann = true) :
    ∀ xs : List Char, xs ≠ [] → lastNotSpace xs = true → titleSplitAux (xs ++ ann) = xs := by
  intro xs
  induction xs with
  | nil => intro h _; exact absurd rfl h
  | cons x t ih =>
    intro _ hlast
    have hno : annMatch ((x :: t) ++ ann) = false := by
      rcases Bool.eq_false_or_eq_true (annMatch ((x :: t) ++ ann)) with ht | hf
      · exfalso
        exact all_space_lastNotSpace_contra (by simp) hlast
          (all_space_of_annMatch_append ht hann)
      · exact hf
    rw [List.cons_append]
    unfold titleSplitAux
    rw [if_neg (by rw [← List.cons_append, hno]; simp)]
    cases t with
    | nil =>
      rw [List.nil_append, titleSplitAux_of_annMatch hann]
    | cons y ys =>
      rw [ih (by simp) (by rw [← lastNotSpace_cons_cons]; exact hlast)]

theorem titleSplit_core_append {core ann : List Char} (h1 : core ≠ [])
    (h2 : lastNotSpace core = true) (hann : annMatch ann = true) :
    titleSplit (core ++ ann) = core := by
  cases core with
  | nil => exact absurd rfl h1
  | cons c t =>
    rw [List.cons_append]
    simp only [titleSplit]
    cases t with
    | nil => rw [List.nil_append, titleSplitAux_of_annMatch hann]
    | cons y ys =>
      rw [titleSplitAux_core_append hann (y :: ys) (by simp)
            (by rw [← lastNotSpace_cons_cons]; exact h2)]

theorem titleSplitAux_no_ann : ∀ {l : List Char},
    (∀ q, annMatch (l.drop q) = false) → titleSplitAux l = l := by
  intro l
  induction l with
  | nil => intro _; rfl
  | cons c t ih =>
    intro h
    unfold titleSplitAux
    rw [if_neg (by have h0 := h 0; rw [List.drop_zero] at h0; simp [h0])]
    rw [ih (fun q => h (q + 1))]

theorem titleSplit_no_ann {l : List Char}
    (h : ∀ q, annMatch (l.drop q) = false) : titleSplit l = l := by
  cases l with
  | nil => rfl
  | cons c t =>
    simp only [titleSplit]
    rw [titleSplitAux_no_ann (fun q => h (q + 1))]

theorem noAnnSuffix_correct {t : List Char} (h : noAnnSuffix t = true) :
    ∀ q, annMatch (t.drop q) = false := by
  intro q
  by_cases hq : q ≤ t.length
  · have hm := List.all_eq_true.mp h q (List.mem_range.mpr (by omega))
    simpa using hm
  · rw [List.drop_eq_nil_of_le (by omega)]
    rfl

/-! ### The strict row pattern -/

theorem strictParse_reqTag (r : List Char) :
    strictParse (reqTag ++ r) = strictAfterTag r := by
  unfold strictParse
  rw [dropLit_append]

theorem strictParse_build (idr ver title : List Char)
    (h1 : idr ≠ []) (h2 : idr.all isWordHyphen = true)
    (h3 : ver ≠ []) (h4 : ver.all Char.isDigit = true)
    (h5 : title ≠ []) (h6 : headNotSpace title = true) :
    strictParse (reqTag ++ (idr ++ ' ' :: 'v' :: (ver ++ ' ' :: title))) =
      some (strip (reqTag ++ idr ++ ' ' :: 'v' :: ver), strip (titleSplit title)) := by
  have hmemI : ∀ a ∈ idr, isWordHyphen a := fun a ha => List.all_eq_true.mp h2 a ha
  have hmemV : ∀ a ∈ ver, Char.isDigit a := fun a ha => List.all_eq_true.mp h4 a ha
  rw [strictParse_reqTag]
  unfold strictAfterTag
  rw [List.takeWhile_append_of_pos hmemI, List.takeWhile_cons_of_neg (by decide),
      List.append_nil, List.dropWhile_append_of_pos hmemI,
      List.dropWhile_cons_of_neg (by decide), if_neg (by simp [h1])]
  rw [show dropSpaces1 (' ' :: 'v' :: (ver ++ ' ' :: title)) =
        some ('v' :: (ver ++ ' ' :: title)) from by
      show (if isSpace ' ' = true then
              some (('v' :: (ver ++ ' ' :: title)).dropWhile isSpace) else none) = _
      rw [if_pos (show isSpace ' ' = true by decide),
          List.dropWhile_cons_of_neg (by decide)]]
  show strictTail idr ('v' :: (ver ++ ' ' :: title)) = _
  simp only [strictTail]
  rw [if_pos (by trivial)]
  rw [List.takeWhile_append_of_pos hmemV, List.takeWhile_cons_of_neg (by decide),
      List.append_nil, List.dropWhile_append_of_pos hmemV,
      List.dropWhile_cons_of_neg (by decide), if_neg (by simp [h3])]
  rw [show dropSpaces1 (' ' :: title) = some title from by
      show (if isSpace ' ' = true then some (title.dropWhile isSpace) else none) = _
      rw [if_pos (show isSpace ' ' = true by decide),
          show title.dropWhile isSpace = title from lstrip_of_headNotSpace h6]]
  show (if title = [] then none
        else some (strip (reqTag ++ idr ++ ' ' :: 'v' :: ver), strip (titleSplit title))) = _
  rw [if_neg h5]

theorem isBoundaryLine_reqTag (r : List Char) : isBoundaryLine (reqTag ++ r) = false := by
  show isBoundaryLine ('R' :: 'E' :: 'Q' :: '-' :: r) = false
  unfold isBoundaryLine
  have h1 : boundaryAlt1 ('R' :: 'E' :: 'Q' :: '-' :: r) = false := by
    simp [boundaryAlt1]
  have h2 : boundaryAlt2 ('R' :: 'E' :: 'Q' :: '-' :: r) = false := by
    simp only [boundaryAlt2]
    rw [List.takeWhile_cons_of_pos (by decide), List.takeWhile_cons_of_pos (by decide),
        List.takeWhile_cons_of_neg (by decide),
        List.dropWhile_cons_of_pos (by decide), List.dropWhile_cons_of_pos (by decide),
        List.dropWhile_cons_of_neg (by decide)]
    simp [headSat]
  rw [h1, h2]
  rfl

theorem strictParse_inv {l u n : List Char} (h : strictParse l = some (u, n)) :
    isRowStart l = true ∧ isBoundaryLine l = false ∧ l ≠ [] ∧
    n ≠ [] ∧ headNotSpace n = true ∧ lastNotSpace n = true := by
  unfold strictParse at h
  cases hdl : dropLit reqTag l with
  | none => rw [hdl] at h; exact absurd h (by simp)
  | some r =>
    rw [hdl] at h
    have hl : l = reqTag ++ r := dropLit_some hdl
    have h1 : strictAfterTag r = some (u, n) := h
    unfold strictAfterTag at h1
    by_cases hi : (r.takeWhile isWordHyphen).isEmpty = true
    · rw [if_pos hi] at h1; exact absurd h1 (by simp)
    · rw [if_neg hi] at h1
      cases hd1 : dropSpaces1 (r.dropWhile isWordHyphen) with
      | none => rw [hd1] at h1; exact absurd h1 (by simp)
      | some r3 =>
        rw [hd1] at h1
        have h2 : strictTail (r.takeWhile isWordHyphen) r3 = some (u, n) := h1
        cases r3 with
        | nil => exact absurd h2 (by simp [strictTail])
        | cons c r4 =>
          simp only [strictTail] at h2
          by_cases hc : c = 'v'
          · rw [if_pos hc] at h2
            subst hc
            by_cases hds : (r4.takeWhile Char.isDigit).isEmpty = true
            · rw [if_pos hds] at h2; exact absurd h2 (by simp)
            · rw [if_neg hds] at h2
              cases hd2 : dropSpaces1 (r4.dropWhile Char.isDigit) with
              | none => rw [hd2] at h2; exact absurd h2 (by simp)
              | some r6 =>
                rw [hd2] at h2
                have h4 : (if r6 = [] then none else
                    some (strip (reqTag ++ r.takeWhile isWordHyphen ++
                            ' ' :: 'v' :: r4.takeWhile Char.isDigit),
                          strip (titleSplit r6))) = some (u, n) := h2
                by_cases hr6 : r6 = []
                · rw [if_pos hr6] at h4; exact absurd h4 (by simp)
                · rw [if_neg hr6] at h4
                  injection h4 with h5
                  rw [Prod.mk.injEq] at h5
                  obtain ⟨hu, hn⟩ := h5
                  obtain ⟨c0, cs0, hsplit0, hc0, hr6e⟩ := dropSpaces1_some hd2
                  have hhr6 : headNotSpace r6 = true := by
                    rw [hr6e]; exact headNotSpace_dropWhile _
                  have hrow : isRowStart l = true := by
                    rw [hl]
                    unfold isRowStart
                    rw [dropLit_append]
                    show (!(r.takeWhile isWordHyphen).isEmpty &&
                      (match dropSpaces1 (r.dropWhile isWordHyphen) with
                       | some r3 => vDigits r3
                       | none => false)) = true
                    rw [hd1]
                    show (!(r.takeWhile isWordHyphen).isEmpty && vDigits ('v' :: r4)) = true
                    obtain ⟨d, t, hr4, hd⟩ := head_sat_of_takeWhile_ne_nil hds
                    subst hr4
                    simp [vDigits, headSat, hd, hi]
                  have hnfacts : n ≠ [] := by
                    cases hr6c : r6 with
                    | nil => exact absurd hr6c hr6
                    | cons a as =>
                      have ha : isSpace a = false := by
                        rw [hr6c] at hhr6
                        unfold headNotSpace at hhr6
                        simpa using hhr6
                      rw [← hn, hr6c]
                      simp only [titleSplit]
                      exact strip_cons_ne_nil ha
                  refine ⟨hrow, ?_, ?_, hnfacts, ?_, ?_⟩
                  · rw [hl]; exact isBoundaryLine_reqTag r
                  · rw [hl]; simp [reqTag]
                  · rw [← hn]; exact headNotSpace_strip _
                  · rw [← hn]; exact lastNotSpace_strip _
          · rw [if_neg hc] at h2
            exact absurd h2 (by simp)

/-- C4: for every well-formed row-start line of the form
`REQ-<id> v<n> <title>` (id a nonempty `[\w-]` word, n nonempty digits,
title nonempty and stripped, as every scanned line is), the strict parse
succeeds, the emitted identifier is exactly `REQ-<id> v<n>`, and the name
is the title itself when the title carries no trailing `(word) number`
annotation, and the title with that trailing annotation (and the
whitespace before it) removed when it does. -/
theorem C4_wellformed_rowstart (idr ver title : List Char)
    (h1 : idr ≠ []) (h2 : idr.all isWordHyphen = true)
    (h3 : ver ≠ []) (h4 : ver.all Char.isDigit = true)
    (h5 : title ≠ []) (h6 : headNotSpace title = true) (h7 : lastNotSpace title = true) :
    ((∀ q, annMatch (title.drop q) = false) →
       strictParse (reqTag ++ idr ++ ' ' :: 'v' :: ver ++ ' ' :: title) =
         some (reqTag ++ idr ++ ' ' :: 'v' :: ver, title)) ∧
    (∀ core ann, title = core ++ ann → annMatch ann = true → core ≠ [] →
       lastNotSpace core = true →
       strictParse (reqTag ++ idr ++ ' ' :: 'v' :: ver ++ ' ' :: title) =
         some (reqTag ++ idr ++ ' ' :: 'v' :: ver, core)) := by
  have hbuild := strictParse_build idr ver title h1 h2 h3 h4 h5 h6
  have huid : strip (reqTag ++ idr ++ ' ' :: 'v' :: ver) =
      reqTag ++ idr ++ ' ' :: 'v' :: ver := by
    apply strip_of_stripped
    · rfl
    · rw [show reqTag ++ idr ++ ' ' :: 'v' :: ver =
            (reqTag ++ idr ++ [' ', 'v']) ++ ver from by simp,
          lastNotSpace_append h3]
      cases hrv : ver.reverse with
      | nil => exact absurd (by simpa using congrArg List.reverse hrv) h3
      | cons d ds =>
        unfold lastNotSpace
        rw [hrv]
        unfold headNotSpace
        have hd : d ∈ ver := by
          have hm : d ∈ ver.reverse := by rw [hrv]; exact List.mem_cons_self _ _
          simpa using hm
        simp [isSpace_false_of_isDigit (List.all_eq_true.mp h4 d hd)]
  constructor
  · intro hno
    rw [show reqTag ++ idr ++ ' ' :: 'v' :: ver ++ ' ' :: title =
          reqTag ++ (idr ++ ' ' :: 'v' :: (ver ++ ' ' :: title)) from by simp,
        hbuild, huid, titleSplit_no_ann hno, strip_of_stripped h6 h7]
  · intro core ann heq hann hcne hclast
    rw [show reqTag ++ idr ++ ' ' :: 'v' :: ver ++ ' ' :: title =
          reqTag ++ (idr ++ ' ' :: 'v' :: (ver ++ ' ' :: title)) from by simp,
        hbuild, huid]
    subst heq
    rw [titleSplit_core_append hcne hclast hann]
    have hch : headNotSpace core = true := by
      cases core with
      | nil => exact absurd rfl hcne
      | cons a as => exact h6
    rw [strip_of_stripped hch hclast]

/-- C4 witness: the first branch at the annotation-free title
`Engine shall report speed`, the second at the title
`Speed limit (v2) 14` carrying the trailing annotation ` (v2) 14`. -/
theorem C4_wellformed_rowstart_witness :
    strictParse "REQ-100 v1 Engine shall report speed".toList =
      some ("REQ-100 v1".toList, "Engine shall report speed".toList) ∧
    strictParse "REQ-5 v3 Speed limit (v2) 14".toList =
      some ("REQ-5 v3".toList, "Speed limit".toList) := by
  constructor
  · exact (C4_wellformed_rowstart "100".toList "1".toList
      "Engine shall report speed".toList (by decide) (by decide) (by decide) (by decide)
      (by decide) (by decide) (by decide)).1 (noAnnSuffix_correct (by decide))
  · exact (C4_wellformed_rowstart "5".toList "3".toList "Speed limit (v2) 14".toList
      (by decide) (by decide) (by decide) (by decide) (by decide) (by decide) (by decide)).2
      "Speed limit".toList " (v2) 14".toList (by decide) (by decide) (by decide) (by decide)

/-! ### Step lemmas for the line scanner -/

theorem flushRow_nil {st : ScanState} (h : st.current_row = []) : flushRow st = st := by
  unfold flushRow
  rw [if_pos h]

theorem flushRow_pair {st : ScanState} {a b : List Char} (hcr : st.current_row = [a, b]) :
    flushRow st = { st with data := st.data ++ [[a, b]], current_row := [] } := by
  unfold flushRow
  rw [if_neg (by simp [hcr]), hcr, if_pos (show 2 ≤ ([a, b] : List (List Char)).length by simp)]
  simp

theorem processLine_skip_empty {st : ScanState} {l : List Char} (h : strip l = []) :
    processLine st l = .ok (st, false) := by
  unfold processLine
  rw [if_pos h]

theorem processLine_noncapturing {st : ScanState} {l : List Char}
    (hc : st.capturing = false) (hm : hasMarker (strip l) = false) :
    processLine st l = .ok (st, false) := by
  unfold processLine
  by_cases he : strip l = []
  · rw [if_pos he]
  · rw [if_neg he, if_neg (by simp [hm]), if_neg (by simp [hc])]

theorem processLine_marker {st : ScanState} {l : List Char}
    (hc : st.capturing = false) (hm : hasMarker (strip l) = true) :
    processLine st l = .ok ({ st with capturing := true }, false) := by
  have hne : strip l ≠ [] := by
    intro he
    rw [he] at hm
    exact absurd hm (by decide)
  unfold processLine
  rw [if_neg hne, if_pos ⟨hc, hm⟩]

theorem processLine_boundary {st : ScanState} {l : List Char}
    (hc : st.capturing = true) (hb : isBoundaryLine (strip l) = true) :
    processLine st l = .ok ({ st with capturing := false }, true) := by
  have hne : strip l ≠ [] := by
    intro he
    rw [he] at hb
    exact absurd hb (by decide)
  unfold processLine
  rw [if_neg hne, if_neg (by simp [hc]), if_pos hc, if_pos hb]

theorem processLine_row {st : ScanState} {l uid nm : List Char}
    (hc : st.capturing = true) (hp : strictParse (strip l) = some (uid, nm)) :
    processLine st l = .ok ({ flushRow st with current_row := [uid, nm] }, false) := by
  obtain ⟨hrow, hnb, hne, _, _, _⟩ := strictParse_inv hp
  unfold processLine
  rw [if_neg hne, if_neg (by simp [hc]), if_pos hc, if_neg (by simp [hnb]), if_pos hrow, hp]

theorem processLine_cont {st : ScanState} {l a b : List Char}
    (hc : st.capturing = true) (hcr : st.current_row = [a, b])
    (hne : strip l ≠ []) (hnb : isBoundaryLine (strip l) = false)
    (hnr : isRowStart (strip l) = false) :
    processLine st l =
      .ok ({ st with current_row := [a, strip (b ++ ' ' :: strip l)] }, false) := by
  unfold processLine
  rw [if_neg hne, if_neg (by simp [hc]), if_pos hc, if_neg (by simp [hnb]),
      if_neg (by simp [hnr]), if_neg (by simp [hcr]),
      if_pos (show 1 < st.current_row.length by rw [hcr]; simp), hcr]
  rfl

theorem processLines_cons_continue {st st1 : ScanState} {l : List Char}
    {ls : List (List Char)} (h : processLine st l = .ok (st1, false)) :
    processLines st (l :: ls) = processLines st1 ls := by
  show (match processLine st l with
        | Except.error e => Except.error e
        | Except.ok (st2, true) => Except.ok st2
        | Except.ok (st2, false) => processLines st2 ls) = processLines st1 ls
  rw [h]

theorem processLines_cons_break {st st1 : ScanState} {l : List Char}
    {ls : List (List Char)} (h : processLine st l = .ok (st1, true)) :
    processLines st (l :: ls) = .ok st1 := by
  show (match processLine st l with
        | Except.error e => Except.error e
        | Except.ok (st2, true) => Except.ok st2
        | Except.ok (st2, false) => processLines st2 ls) = Except.ok st1
  rw [h]

theorem processLines_noncapturing {st : ScanState} (hc : st.capturing = false) :
    ∀ {lines : List (List Char)}, (∀ l ∈ lines, hasMarker (strip l) = false) →
      processLines st lines = .ok st := by
  intro lines
  induction lines with
  | nil => intro _; rfl
  | cons l ls ih =>
    intro h
    rw [processLines_cons_continue (processLine_noncapturing hc (h l (List.mem_cons_self _ _)))]
    exact ih (fun x hx => h x (List.mem_cons_of_mem _ hx))

theorem pageFlush_notcapturing {st : ScanState} (hc : st.capturing = false) :
    pageFlush st = st := by
  unfold pageFlush
  rw [if_neg (by simp [hc])]

theorem pageFlush_pair {st : ScanState} {a b : List Char}
    (hc : st.capturing = true) (hcr : st.current_row = [a, b]) :
    pageFlush st = { st with data := st.data ++ [[a, b]], current_row := [] } := by
  unfold pageFlush
  rw [if_pos ⟨hc, by simp [hcr], show 2 ≤ st.current_row.length by rw [hcr]; simp⟩, hcr]
  simp

theorem processPage_lines {st st1 : ScanState} {t : List Char} (hne : t ≠ [])
    (h : processLines st (splitLines t) = .ok st1) :
    processPage st (some t) = .ok (pageFlush st1) := by
  show (if t = [] then Except.ok st
        else match processLines st (splitLines t) with
             | Except.error e => Except.error e
             | Except.ok st2 => Except.ok (pageFlush st2)) = Except.ok (pageFlush st1)
  rw [if_neg hne, h]

theorem processPage_lines_noflush {st st1 : ScanState} {t : List Char} (hne : t ≠ [])
    (h : processLines st (splitLines t) = .ok st1) (hc : st1.capturing = false) :
    processPage st (some t) = .ok st1 := by
  rw [processPage_lines hne h, pageFlush_notcapturing hc]

theorem scanPages_cons {st st1 : ScanState} {p : Option (List Char)}
    {ps : List (Option (List Char))} (h : processPage st p = .ok st1) :
    scanPages st (p :: ps) = scanPages st1 ps := by
  show (match processPage st p with
        | Except.error e => Except.error e
        | Except.ok st2 => scanPages st2 ps) = scanPages st1 ps
  rw [h]

theorem scanDocument_of_scan {pages : List (Option (List Char))} {st : ScanState}
    (h : scanPages initialState pages = .ok st) :
    scanDocument pages =
      .ok (if st.current_row ≠ [] ∧ 2 ≤ st.current_row.length
           then st.data ++ [st.current_row.take 2] else st.data) := by
  unfold scanDocument
  rw [h]

theorem extract_of_scanDoc {pages : List (Option (List Char))}
    {D : List (List (List Char))} (h : scanDocument pages = .ok D) :
    extract_active_requirements_table (some pages) =
      (if D = [] then none else some D) := by
  show (match scanDocument pages with
        | Except.error _ => none
        | Except.ok d => if d = [] then none else some d) =
      (if D = [] then none else some D)
  rw [h]

theorem extract_of_scan {pages : List (Option (List Char))} {st : ScanState}
    (h : scanPages initialState pages = .ok st) :
    extract_active_requirements_table (some pages) =
      (if (if st.current_row ≠ [] ∧ 2 ≤ st.current_row.length
           then st.data ++ [st.current_row.take 2] else st.data) = []
       then none
       else some (if st.current_row ≠ [] ∧ 2 ≤ st.current_row.length
                  then st.data ++ [st.current_row.take 2] else st.data)) :=
  extract_of_scanDoc (scanDocument_of_scan h)

theorem extract_of_scan_nil_cr {pages : List (Option (List Char))} {st : ScanState}
    (h : scanPages initialState pages = .ok st)
    (hcr : st.current_row = []) (hd : st.data ≠ []) :
    extract_active_requirements_table (some pages) = some st.data := by
  rw [extract_of_scan h]
  have hni : ¬(st.current_row ≠ [] ∧ 2 ≤ st.current_row.length) := by simp [hcr]
  rw [if_neg hni, if_neg hd]

theorem extract_of_scan_pair_cr {pages : List (Option (List Char))} {st : ScanState}
    {a b : List Char} (h : scanPages initialState pages = .ok st)
    (hcr : st.current_row = [a, b]) :
    extract_active_requirements_table (some pages) = some (st.data ++ [[a, b]]) := by
  have hc : st.current_row ≠ [] ∧ 2 ≤ st.current_row.length :=
    ⟨by simp [hcr], by rw [hcr]; simp⟩
  rw [extract_of_scan h, if_pos hc, hcr, if_neg (by simp)]
  simp

/-! ### Data is only ever appended to -/

theorem flushRow_data (st : ScanState) : ∃ s, (flushRow st).data = st.data ++ s := by
  unfold flushRow
  by_cases h1 : st.current_row = []
  · rw [if_pos h1]; exact ⟨[], by simp⟩
  · rw [if_neg h1]
    by_cases h2 : 2 ≤ st.current_row.length
    · rw [if_pos h2]; exact ⟨[st.current_row.take 2], rfl⟩
    · rw [if_neg h2]; exact ⟨[], by simp⟩

theorem pageFlush_data (st : ScanState) : ∃ s, (pageFlush st).data = st.data ++ s := by
  unfold pageFlush
  by_cases h : st.capturing = true ∧ st.current_row ≠ [] ∧ 2 ≤ st.current_row.length
  · rw [if_pos h]; exact ⟨[st.current_row.take 2], rfl⟩
  · rw [if_neg h]; exact ⟨[], by simp⟩

theorem processLine_data {st st1 : ScanState} {l : List Char} {br : Bool}
    (h : processLine st l = .ok (st1, br)) : ∃ s, st1.data = st.data ++ s := by
  have hid : ∀ st2 : ScanState, st2 = st1 → st2.data = st.data →
      ∃ s, st1.data = st.data ++ s :=
    fun st2 he hd => ⟨[], by rw [← he, hd, List.append_nil]⟩
  unfold processLine at h
  by_cases he : strip l = []
  · rw [if_pos he] at h
    injection h with h2
    rw [Prod.mk.injEq] at h2
    exact hid st h2.1 rfl
  · rw [if_neg he] at h
    by_cases hm : st.capturing = false ∧ hasMarker (strip l) = true
    · rw [if_pos hm] at h
      injection h with h2
      rw [Prod.mk.injEq] at h2
      exact hid _ h2.1 rfl
    · rw [if_neg hm] at h
      by_cases hc : st.capturing = true
      · rw [if_pos hc] at h
        by_cases hb : isBoundaryLine (strip l) = true
        · rw [if_pos hb] at h
          injection h with h2
          rw [Prod.mk.injEq] at h2
          exact hid _ h2.1 rfl
        · rw [if_neg hb] at h
          by_cases hr : isRowStart (strip l) = true
          · rw [if_pos hr] at h
            obtain ⟨s, hs⟩ := flushRow_data st
            cases hsp : strictParse (strip l) with
            | some p =>
              rw [hsp] at h
              cases p with
              | mk uid nm =>
                injection h with h2
                rw [Prod.mk.injEq] at h2
                refine ⟨s, ?_⟩
                rw [← h2.1]
                exact hs
            | none =>
              rw [hsp] at h
              injection h with h2
              rw [Prod.mk.injEq] at h2
              refine ⟨s, ?_⟩
              rw [← h2.1]
              exact hs
          · rw [if_neg hr] at h
            by_cases hcr : st.current_row = []
            · rw [if_pos hcr] at h
              injection h with h2
              rw [Prod.mk.injEq] at h2
              exact hid _ h2.1 rfl
            · rw [if_neg hcr] at h
              by_cases hlen : 1 < st.current_row.length
              · rw [if_pos hlen] at h
                injection h with h2
                rw [Prod.mk.injEq] at h2
                exact hid _ h2.1 rfl
              · rw [if_neg hlen] at h
                exact absurd h (by simp)
      · rw [if_neg hc] at h
        injection h with h2
        rw [Prod.mk.injEq] at h2
        exact hid _ h2.1 rfl

theorem processLines_data {ls : List (List Char)} :
    ∀ {st st1 : ScanState}, processLines st ls = .ok st1 → ∃ s, st1.data = st.data ++ s := by
  induction ls with
  | nil =>
    intro st st1 h
    injection h with h2
    exact ⟨[], by rw [← h2]; simp⟩
  | cons l ls ih =>
    intro st st1 h
    have h1 : (match processLine st l with
               | Except.error e => Except.error e
               | Except.ok (st2, true) => Except.ok st2
               | Except.ok (st2, false) => processLines st2 ls) = Except.ok st1 := h
    cases hpl : processLine st l with
    | error e => rw [hpl] at h1; exact absurd h1 (by simp)
    | ok p =>
      rw [hpl] at h1
      cases p with
      | mk st2 br =>
        obtain ⟨s1, hs1⟩ := processLine_data hpl
        cases br with
        | true =>
          have h2 : Except.ok (ε := Unit) st2 = Except.ok st1 := h1
          injection h2 with h3
          exact ⟨s1, by rw [← h3]; exact hs1⟩
        | false =>
          have h3 : processLines st2 ls = Except.ok st1 := h1
          obtain ⟨s2, hs2⟩ := ih h3
          exact ⟨s1 ++ s2, by rw [hs2, hs1, List.append_assoc]⟩

theorem processPage_data {st st1 : ScanState} {p : Option (List Char)}
    (h : processPage st p = .ok st1) : ∃ s, st1.data = st.data ++ s := by
  cases p with
  | none =>
    have h1 : Except.ok (ε := Unit) st = Except.ok st1 := h
    injection h1 with h2
    exact ⟨[], by rw [← h2]; simp⟩
  | some t =>
    have h1 : (if t = [] then Except.ok st
               else match processLines st (splitLines t) with
                    | Except.error e => Except.error e
                    | Except.ok st2 => Except.ok (pageFlush st2)) = Except.ok st1 := h
    by_cases ht : t = []
    · rw [if_pos ht] at h1
      injection h1 with h2
      exact ⟨[], by rw [← h2]; simp⟩
    · rw [if_neg ht] at h1
      cases hpl : processLines st (splitLines t) with
      | error e => rw [hpl] at h1; exact absurd h1 (by simp)
      | ok st2 =>
        rw [hpl] at h1
        injection h1 with h2
        obtain ⟨s1, hs1⟩ := processLines_data hpl
        obtain ⟨s2, hs2⟩ := pageFlush_data st2
        exact ⟨s1 ++ s2, by rw [← h2, hs2, hs1, List.append_assoc]⟩

theorem scanPages_data {ps : List (Option (List Char))} :
    ∀ {st st1 : ScanState}, scanPages st ps = .ok st1 → ∃ s, st1.data = st.data ++ s := by
  induction ps with
  | nil =>
    intro st st1 h
    injection h with h2
    exact ⟨[], by rw [← h2]; simp⟩
  | cons p ps ih =>
    intro st st1 h
    have h1 : (match processPage st p with
               | Except.error e => Except.error e
               | Except.ok st2 => scanPages st2 ps) = Except.ok st1 := h
    cases hpp : processPage st p with
    | error e => rw [hpp] at h1; exact absurd h1 (by simp)
    | ok st2 =>
      rw [hpp] at h1
      have h3 : scanPages st2 ps = Except.ok st1 := h1
      obtain ⟨s1, hs1⟩ := processPage_data hpp
      obtain ⟨s2, hs2⟩ := ih h3
      exact ⟨s1 ++ s2, by rw [hs2, hs1, List.append_assoc]⟩

/-! ### Continuation folding -/

theorem processLines_cont_fold {uid : List Char} :
    ∀ (ls : List (List Char)) (nm : List Char) (D : List (List (List Char))),
      nm ≠ [] → headNotSpace nm = true → lastNotSpace nm = true →
      (∀ l ∈ ls, strip l ≠ [] ∧ isBoundaryLine (strip l) = false ∧
         isRowStart (strip l) = false) →
      processLines { capturing := true, data := D, current_row := [uid, nm] } ls =
        .ok { capturing := true, data := D,
              current_row := [uid, List.foldl (fun a l => a ++ ' ' :: strip l) nm ls] } := by
  intro ls
  induction ls with
  | nil => intro nm D _ _ _ _; rfl
  | cons l ls ih =>
    intro nm D hne0 hh0 hl0 h
    obtain ⟨hne, hnb, hnr⟩ := h l (List.mem_cons_self _ _)
    rw [processLines_cons_continue (processLine_cont rfl rfl hne hnb hnr)]
    rw [show strip (nm ++ ' ' :: strip l) = nm ++ ' ' :: strip l from
          strip_append_sep hne0 hh0 hne (lastNotSpace_strip l)]
    have hhead : headNotSpace (nm ++ ' ' :: strip l) = true := by
      rw [headNotSpace_append hne0]; exact hh0
    have hlast : lastNotSpace (nm ++ ' ' :: strip l) = true := by
      rw [show nm ++ ' ' :: strip l = (nm ++ [' ']) ++ strip l from by simp,
          lastNotSpace_append hne]
      exact lastNotSpace_strip l
    exact ih (nm ++ ' ' :: strip l) D (by simp) hhead hlast
      (fun x hx => h x (List.mem_cons_of_mem _ hx))

theorem intercalate_space_cons_cons (a b : List Char) (t : List (List Char)) :
    List.intercalate [' '] (a :: b :: t) = a ++ ' ' :: List.intercalate [' '] (b :: t) := by
  simp [List.intercalate, List.intersperse]

theorem intercalate_space_single (a : List Char) :
    List.intercalate [' '] [a] = a := by
  simp [List.intercalate, List.intersperse]

theorem intercalate_space_append (a b : List Char) (t : List (List Char)) :
    List.intercalate [' '] ((a ++ ' ' :: b) :: t) =
      a ++ ' ' :: List.intercalate [' '] (b :: t) := by
  cases t with
  | nil => rw [intercalate_space_single, intercalate_space_single]
  | cons c t => rw [intercalate_space_cons_cons, intercalate_space_cons_cons]; simp

theorem foldl_join_intercalate :
    ∀ (ls : List (List Char)) (nm : List Char),
      List.foldl (fun a l => a ++ ' ' :: strip l) nm ls =
        List.intercalate [' '] (nm :: ls.map strip) := by
  intro ls
  induction ls with
  | nil => intro nm; rw [List.map_nil, intercalate_space_single]; rfl
  | cons l ls ih =>
    intro nm
    rw [show List.foldl (fun a l => a ++ ' ' :: strip l) nm (l :: ls) =
          List.foldl (fun a l => a ++ ' ' :: strip l) (nm ++ ' ' :: strip l) ls from rfl,
        ih, List.map_cons, intercalate_space_cons_cons, ← intercalate_space_append]

/-- C5: a well-formed row-start line followed while capturing by one or more
non-empty lines, none of which is a row-start or boundary line, before page
end yields one record whose name is the space-joined trim of the row-start
title and each continuation line in document order. -/
theorem C5_continuation_join (pageText uid nm rowLine : List Char) (ls : List (List Char))
    (hsplit : splitLines pageText = markerLine :: rowLine :: ls)
    (hparse : strictParse (strip rowLine) = some (uid, nm))
    (hls : ∀ l ∈ ls, strip l ≠ [] ∧ isBoundaryLine (strip l) = false ∧
       isRowStart (strip l) = false) :
    extract_active_requirements_table (some [some pageText]) =
      some [[uid, List.intercalate [' '] (nm :: ls.map strip)]] := by
  obtain ⟨_, _, _, hnmne, hnmh, hnml⟩ := strictParse_inv hparse
  have hpne : pageText ≠ [] := by
    intro hpe
    rw [hpe, show splitLines [] = [[]] from rfl] at hsplit
    injection hsplit with _ h2
    simp at h2
  have hlines : processLines initialState (splitLines pageText) =
      .ok { capturing := true, data := [],
            current_row := [uid, List.foldl (fun a l => a ++ ' ' :: strip l) nm ls] } := by
    rw [hsplit,
        processLines_cons_continue (processLine_marker rfl (by decide)),
        processLines_cons_continue (processLine_row rfl hparse)]
    exact processLines_cont_fold ls nm [] hnmne hnmh hnml hls
  have hpage : processPage initialState (some pageText) =
      .ok { capturing := true,
            data := [[uid, List.foldl (fun a l => a ++ ' ' :: strip l) nm ls]],
            current_row := [] } := by
    rw [processPage_lines hpne hlines, pageFlush_pair rfl rfl]
    rfl
  have hsp : scanPages initialState [some pageText] =
      .ok { capturing := true,
            data := [[uid, List.foldl (fun a l => a ++ ' ' :: strip l) nm ls]],
            current_row := [] } := by
    rw [scanPages_cons hpage]
    rfl
  rw [extract_of_scan_nil_cr hsp rfl (by simp), foldl_join_intercalate]

/-- C5 witness: the marker line, a row-start line and two continuation
lines on one page produce a single record with the space-joined name. -/
theorem C5_continuation_join_witness :
    extract_active_requirements_table
        (some [some ("Active Requirements\nREQ-9 v2 Engine shall\nreport speed\nto the dashboard".toList)]) =
      some [["REQ-9 v2".toList, "Engine shall report speed to the dashboard".toList]] := by
  have h := C5_continuation_join
    "Active Requirements\nREQ-9 v2 Engine shall\nreport speed\nto the dashboard".toList
    "REQ-9 v2".toList "Engine shall".toList "REQ-9 v2 Engine shall".toList
    ["report speed".toList, "to the dashboard".toList]
    (by decide) (by decide) (by decide)
  exact h.trans (by decide)

/-- C7: a boundary line immediately after a row-start line, with no
continuation lines, ends capturing at once; the pending record is left in
place (not duplicated, not dropped) and the extractor commits exactly that
one record, with no phantom empty record. -/
theorem C7_boundary_after_rowstart (pageText uid nm rowLine bLine : List Char)
    (hsplit : splitLines pageText = [markerLine, rowLine, bLine])
    (hparse : strictParse (strip rowLine) = some (uid, nm))
    (hb : isBoundaryLine (strip bLine) = true) :
    scanPages initialState [some pageText] =
      .ok { capturing := false, data := [], current_row := [uid, nm] } ∧
    extract_active_requirements_table (some [some pageText]) = some [[uid, nm]] := by
  have hpne : pageText ≠ [] := by
    intro hpe
    rw [hpe, show splitLines [] = [[]] from rfl] at hsplit
    injection hsplit with _ h2
    simp at h2
  have hlines : processLines initialState (splitLines pageText) =
      .ok { capturing := false, data := [], current_row := [uid, nm] } := by
    rw [hsplit,
        processLines_cons_continue (processLine_marker rfl (by decide)),
        processLines_cons_continue (processLine_row rfl hparse),
        processLines_cons_break (processLine_boundary rfl hb)]
    rfl
  have hpage : processPage initialState (some pageText) =
      .ok { capturing := false, data := [], current_row := [uid, nm] } :=
    processPage_lines_noflush hpne hlines rfl
  have hsp : scanPages initialState [some pageText] =
      .ok { capturing := false, data := [], current_row := [uid, nm] } := by
    rw [scanPages_cons hpage]
    rfl
  refine ⟨hsp, ?_⟩
  have h2 := extract_of_scan_pair_cr hsp rfl
  exact h2.trans (by rw [List.nil_append])

/-- C7 witness: a concrete page of marker, row-start and boundary lines. -/
theorem C7_boundary_after_rowstart_witness :
    extract_active_requirements_table
        (some [some ("Active Requirements\nREQ-77 v4 Fail safe braking\nSummary:".toList)]) =
      some [["REQ-77 v4".toList, "Fail safe braking".toList]] :=
  (C7_boundary_after_rowstart
    "Active Requirements\nREQ-77 v4 Fail safe braking\nSummary:".toList
    "REQ-77 v4".toList "Fail safe braking".toList
    "REQ-77 v4 Fail safe braking".toList "Summary:".toList
    (by decide) (by decide) (by decide)).2

/-- C8: a row started on a page with no continuation before page end is
committed at the page boundary: after that page the record is already in
the output, `capturing` is still true, and however the remaining pages are
scanned, the committed record stays first in the output (data only grows by
appending). -/
theorem C8_pageend_flush (pageText uid nm rowLine : List Char)
    (rest : List (Option (List Char)))
    (hsplit : splitLines pageText = [markerLine, rowLine])
    (hparse : strictParse (strip rowLine) = some (uid, nm)) :
    scanPages initialState (some pageText :: rest) =
      scanPages { capturing := true, data := [[uid, nm]], current_row := [] } rest ∧
    (∀ st1, scanPages { capturing := true, data := [[uid, nm]], current_row := [] } rest =
        .ok st1 → ∃ tl, st1.data = [uid, nm] :: tl) := by
  have hpne : pageText ≠ [] := by
    intro hpe
    rw [hpe, show splitLines [] = [[]] from rfl] at hsplit
    injection hsplit with _ h2
    simp at h2
  have hlines : processLines initialState (splitLines pageText) =
      .ok { capturing := true, data := [], current_row := [uid, nm] } := by
    rw [hsplit,
        processLines_cons_continue (processLine_marker rfl (by decide)),
        processLines_cons_continue (processLine_row rfl hparse)]
    rfl
  have hpage : processPage initialState (some pageText) =
      .ok { capturing := true, data := [[uid, nm]], current_row := [] } := by
    rw [processPage_lines hpne hlines, pageFlush_pair rfl rfl]
    rfl
  refine ⟨scanPages_cons hpage, ?_⟩
  intro st1 h1
  obtain ⟨s, hs⟩ := scanPages_data h1
  exact ⟨s, by rw [hs]; rfl⟩

/-- C8 witness: the record of page 1 is committed before page 2 is scanned
and remains the first record of the final output. -/
theorem C8_pageend_flush_witness :
    scanPages initialState
        [some ("Active Requirements\nREQ-8 v1 Engine speed".toList),
         some ("REQ-9 v1 Brakes".toList)] =
      scanPages { capturing := true,
                  data := [["REQ-8 v1".toList, "Engine speed".toList]],
                  current_row := [] }
        [some ("REQ-9 v1 Brakes".toList)] ∧
    ∃ tl, ∀ st1,
      scanPages { capturing := true,
                  data := [["REQ-8 v1".toList, "Engine speed".toList]],
                  current_row := [] }
        [some ("REQ-9 v1 Brakes".toList)] = .ok st1 →
        st1.data = ["REQ-8 v1".toList, "Engine speed".toList] :: tl := by
  have h := C8_pageend_flush "Active Requirements\nREQ-8 v1 Engine speed".toList
    "REQ-8 v1".toList "Engine speed".toList "REQ-8 v1 Engine speed".toList
    [some ("REQ-9 v1 Brakes".toList)] (by decide) (by decide)
  refine ⟨h.1, [["REQ-9 v1".toList, "Brakes".toList]], ?_⟩
  intro st1 h1
  have h3 : scanPages (ScanState.mk true [["REQ-8 v1".toList, "Engine speed".toList]] [])
      [some ("REQ-9 v1 Brakes".toList)] =
      Except.ok (ScanState.mk true
        [["REQ-8 v1".toList, "Engine speed".toList],
         ["REQ-9 v1".toList, "Brakes".toList]] []) := rfl
  rw [h3] at h1
  injection h1 with h4
  rw [← h4]

/-- C2 (amended): a scan in which no rows matched anywhere returns the same
value, `none`, that the extractor returns when the file cannot be opened;
the two conditions are not distinguishable at the return value. -/
theorem C2_amended_same_return (pages : List (Option (List Char)))
    (h : scanDocument pages = .ok []) :
    extract_active_requirements_table (some pages) = none ∧
    extract_active_requirements_table none = none := by
  constructor
  · rw [extract_of_scanDoc h]
    rfl
  · rfl

/-- C2 amended witness: a one-page document with no table. -/
theorem C2_amended_same_return_witness :
    scanDocument [some ("hello world".toList)] = .ok [] ∧
    extract_active_requirements_table (some [some ("hello world".toList)]) = none ∧
    extract_active_requirements_table none = none :=
  ⟨rfl, (C2_amended_same_return [some ("hello world".toList)] rfl).1,
    (C2_amended_same_return [some ("hello world".toList)] rfl).2⟩

/-- C10 (amended): when a boundary line ends capturing while a record is
pending, the page-end flush does not commit it (it applies only while
capturing); the pending record survives across marker-less pages untouched,
continuation lines are appended to its name once the marker re-triggers
capturing, and it is committed at the next row-start line (here), at the
end of a page scanned while capturing is active again, or at the final
flush. -/
theorem C10_amended_pending_survival
    (p1 p2 p3 uid nm bLine rowLine contLine rowLine2 uid2 nm2 : List Char)
    (junk : List (List Char))
    (hs1 : splitLines p1 = [markerLine, rowLine, bLine])
    (hp1 : strictParse (strip rowLine) = some (uid, nm))
    (hb : isBoundaryLine (strip bLine) = true)
    (hs2 : splitLines p2 = junk) (hjunk : ∀ l ∈ junk, hasMarker (strip l) = false)
    (hs3 : splitLines p3 = [markerLine, contLine, rowLine2])
    (hcont : strip contLine ≠ [] ∧ isBoundaryLine (strip contLine) = false ∧
       isRowStart (strip contLine) = false)
    (hp2 : strictParse (strip rowLine2) = some (uid2, nm2)) :
    scanPages initialState [some p1] =
      .ok { capturing := false, data := [], current_row := [uid, nm] } ∧
    scanPages initialState [some p1, some p2] =
      .ok { capturing := false, data := [], current_row := [uid, nm] } ∧
    scanPages initialState [some p1, some p2, some p3] =
      .ok { capturing := true,
            data := [[uid, nm ++ ' ' :: strip contLine], [uid2, nm2]],
            current_row := [] } ∧
    extract_active_requirements_table (some [some p1, some p2, some p3]) =
      some [[uid, nm ++ ' ' :: strip contLine], [uid2, nm2]] := by
  obtain ⟨_, _, _, hnmne, hnmh, hnml⟩ := strictParse_inv hp1
  have hpne1 : p1 ≠ [] := by
    intro hpe
    rw [hpe, show splitLines [] = [[]] from rfl] at hs1
    injection hs1 with _ h2
    simp at h2
  have hpage1 : processPage initialState (some p1) =
      .ok { capturing := false, data := [], current_row := [uid, nm] } := by
    have hlines : processLines initialState (splitLines p1) =
        .ok { capturing := false, data := [], current_row := [uid, nm] } := by
      rw [hs1,
          processLines_cons_continue (processLine_marker rfl (by decide)),
          processLines_cons_continue (processLine_row rfl hp1),
          processLines_cons_break (processLine_boundary rfl hb)]
      rfl
    exact processPage_lines_noflush hpne1 hlines rfl
  have hpage2 : processPage { capturing := false, data := [], current_row := [uid, nm] }
      (some p2) = .ok { capturing := false, data := [], current_row := [uid, nm] } := by
    by_cases hp : p2 = []
    · rw [hp]
      rfl
    · have hlines2 : processLines
          { capturing := false, data := [], current_row := [uid, nm] } (splitLines p2) =
          .ok { capturing := false, data := [], current_row := [uid, nm] } := by
        rw [hs2]
        exact processLines_noncapturing rfl hjunk
      exact processPage_lines_noflush hp hlines2 rfl
  have hpne3 : p3 ≠ [] := by
    intro hpe
    rw [hpe, show splitLines [] = [[]] from rfl] at hs3
    injection hs3 with _ h2
    simp at h2
  have hjoin : strip (nm ++ ' ' :: strip contLine) = nm ++ ' ' :: strip contLine :=
    strip_append_sep hnmne hnmh hcont.1 (lastNotSpace_strip contLine)
  have hpage3 : processPage { capturing := false, data := [], current_row := [uid, nm] }
      (some p3) =
      .ok { capturing := true,
            data := [[uid, nm ++ ' ' :: strip contLine], [uid2, nm2]],
            current_row := [] } := by
    have hlines3 : processLines
        { capturing := false, data := [], current_row := [uid, nm] } (splitLines p3) =
        .ok { capturing := true, data := [[uid, nm ++ ' ' :: strip contLine]],
              current_row := [uid2, nm2] } := by
      rw [hs3,
          processLines_cons_continue (processLine_marker rfl (by decide)),
          processLines_cons_continue
            (processLine_cont rfl rfl hcont.1 hcont.2.1 hcont.2.2),
          hjoin,
          processLines_cons_continue (processLine_row rfl hp2)]
      rw [flushRow_pair rfl]
      rfl
    rw [processPage_lines hpne3 hlines3, pageFlush_pair rfl rfl]
    rfl
  have hsp1 : scanPages initialState [some p1] =
      .ok { capturing := false, data := [], current_row := [uid, nm] } := by
    rw [scanPages_cons hpage1]
    rfl
  have hsp2 : scanPages initialState [some p1, some p2] =
      .ok { capturing := false, data := [], current_row := [uid, nm] } := by
    rw [scanPages_cons hpage1, scanPages_cons hpage2]
    rfl
  have hsp3 : scanPages initialState [some p1, some p2, some p3] =
      .ok { capturing := true,
            data := [[uid, nm ++ ' ' :: strip contLine], [uid2, nm2]],
            current_row := [] } := by
    rw [scanPages_cons hpage1, scanPages_cons hpage2, scanPages_cons hpage3]
    rfl
  exact ⟨hsp1, hsp2, hsp3, extract_of_scan_nil_cr hsp3 rfl (by simp)⟩

/-- C10 amended witness: the concrete three-page document. -/
theorem C10_amended_pending_survival_witness :
    extract_active_requirements_table
        (some [some ("Active Requirements\nREQ-1 v1 Title\nSummary:".toList),
               some ("nothing relevant".toList),
               some ("Active Requirements\nmore words\nREQ-2 v1 Second".toList)]) =
      some [["REQ-1 v1".toList, "Title more words".toList],
            ["REQ-2 v1".toList, "Second".toList]] := by
  have h := (C10_amended_pending_survival
    "Active Requirements\nREQ-1 v1 Title\nSummary:".toList
    "nothing relevant".toList
    "Active Requirements\nmore words\nREQ-2 v1 Second".toList
    "REQ-1 v1".toList "Title".toList "Summary:".toList "REQ-1 v1 Title".toList
    "more words".toList "REQ-2 v1 Second".toList "REQ-2 v1".toList "Second".toList
    ["nothing relevant".toList]
    (by decide) (by decide) (by decide) (by decide) (by decide) (by decide)
    (by decide) (by decide)).2.2.2
  exact h.trans (by decide)

/-- C1 (code_bug evidence): on a capturing region containing the well-formed
row `REQ-200 v1 Good row`, a line (`REQ-1 v2`) that matches the row-start
pattern but fails the strict capture pattern, and a following continuation
line, the scan raises internally (the index-1 assignment of line 76 on the
one-element `current_row`) and the extractor returns the absent result: the
well-formed row is lost, contradicting the claim that such a line degrades
to continuation handling with all other well-formed rows preserved. -/
theorem C1_rowparse_mismatch_crashes :
    strictParse "REQ-200 v1 Good row".toList =
      some ("REQ-200 v1".toList, "Good row".toList) ∧
    isRowStart "REQ-1 v2".toList = true ∧
    strictParse "REQ-1 v2".toList = none ∧
    scanDocument [some c1Input] = .error () ∧
    extract_active_requirements_table (some [some c1Input]) = none :=
  ⟨rfl, rfl, rfl, rfl, rfl⟩

/-- C2 (counterexample): a readable document in which no rows matched
anywhere takes the empty-result path (`scanDocument` succeeds with no data)
yet the extractor returns `none`, the very same value it returns for an
unopenable file — the two outcomes are not distinct at the return value. -/
theorem C2_counterexample :
    scanDocument [some ("just some text".toList)] = .ok [] ∧
    extract_active_requirements_table (some [some ("just some text".toList)]) = none ∧
    extract_active_requirements_table none = none :=
  ⟨rfl, rfl, rfl⟩

/-- C3 (code_bug evidence): on the readable page sequence `[some c3Input]`
(a marker line, a row-start line with no title, and one more line) the scan
raises internally and the extractor yields the absent outcome even though
the source file could be opened and read, contradicting the claim that it
fails only when the source file cannot be opened or read at all. -/
theorem C3_internal_error_on_readable_input :
    scanDocument [some c3Input] = .error () ∧
    extract_active_requirements_table (some [some c3Input]) = none :=
  ⟨rfl, rfl⟩

/-- C6 (counterexample): on the example input the first emitted name keeps
the `(v2) 14` annotation of the continuation line (annotation stripping
applies only to the strict row-start pattern), so the output is not the
claimed pair of records whose first name ends at "module". -/
theorem C6_counterexample :
    extract_active_requirements_table (some [some c6Input]) ≠
      some [["REQ-100 v1".toList,
             "Engine shall report speed to the dashboard module".toList],
            ["REQ-101 v1".toList, "Brake system shall fail safe".toList]] := by
  decide

/-- C6 (amended): on the example input the output is exactly two records in
order, the first with the continuation line appended including its
`(v2) 14` annotation (annotations are stripped only on row-start lines),
the second as claimed. -/
theorem C6_amended_end_to_end :
    extract_active_requirements_table (some [some c6Input]) =
      some [["REQ-100 v1".toList,
             "Engine shall report speed to the dashboard module (v2) 14".toList],
            ["REQ-101 v1".toList, "Brake system shall fail safe".toList]] :=
  rfl

/-- C9: a page whose extracted text is absent (`none`) or empty is skipped
with the scan state unchanged, and scanning continues on the remaining
pages exactly as if the failed page were not there; a single failed page
never aborts the extraction. -/
theorem C9_failed_page_skipped (st : ScanState) (rest : List (Option (List Char))) :
    processPage st none = .ok st ∧
    processPage st (some []) = .ok st ∧
    scanPages st (none :: rest) = scanPages st rest ∧
    scanPages st (some [] :: rest) = scanPages st rest := by
  refine ⟨rfl, rfl, ?_, ?_⟩ <;> simp [scanPages, processPage]

/-- C10 (counterexample): a record left pending when a boundary line ended
capturing is committed at the end of a later page scanned after the marker
re-triggered capturing — before any further row-start line and before the
final end-of-document flush (a third page follows) — refuting "committed
only at the next row-start line or at the final end-of-document flush". -/
theorem C10_counterexample :
    scanPages initialState [some c10page1, some c10page2] =
      .ok { capturing := true,
            data := [["REQ-1 v1".toList, "Title more words".toList]],
            current_row := [] } ∧
    extract_active_requirements_table (some [some c10page1, some c10page2, some c10page3]) =
      some [["REQ-1 v1".toList, "Title more words".toList]] :=
  ⟨rfl, rfl⟩

end PdfExtractor
